import Mathlib

/-!
Verification of the concurrency/scheduling core of the Firestore C++ client:
the write-serialization queue (`BufferedWriter`, from
Firestore/core/src/firebase/firestore/remote/buffered_writer.h) and the task
scheduling contract (`Executor` / `DelayedOperation`, from
Firestore/core/src/firebase/firestore/util/executor.h).

The repository ships only the two headers: the bodies of the `BufferedWriter`
methods and all concrete `Executor` implementations live outside the provided
sources.  Definitions taken directly from the headers are marked with the
header line numbers; definitions for the missing bodies are marked
`Modelled from the spec:` and follow the specification text.
-/

set_option maxHeartbeats 1000000

namespace Firestore

/-- A payload is an opaque immutable byte blob (grpc::ByteBuffer); its contents
are never interpreted by this core, so it is modelled as an opaque `Nat`. -/
abbrev Payload := Nat

/-- A write record: a payload together with its submission index
(the spec's QueuedWrite, "a payload plus its position in submission order"). -/
abbrev Write := Nat × Payload

/-- Modelled from the spec: the WriteHandle returned by EnqueueWrite /
DequeueNextWrite (a `StreamWrite*` in the header; the implementation that
produces it is not among the provided sources).  A handle either refers to the
in-flight write just started, or represents a payload still buffered
(not yet started). -/
inductive WriteHandle where
  | inflight (w : Write)
  | queued (w : Write)
  deriving Repr, DecidableEq

/-- State of a `BufferedWriter` (buffered_writer.h lines 51-79).
The first five fields mirror the data members `stream_`, `call_`,
`firestore_queue_` (opaque non-owning pointers, modelled as opaque `Nat`),
`queue_` and `has_active_write_`.  The remaining fields are history
(ghost) variables used only to state specifications: `nextId` numbers
EnqueueWrite calls, `active` records the current in-flight write, `started`
records writes in the order they became active, `enqueued` records writes in
the order they were enqueued, and `inflight` counts writes currently held by
the transport. -/
structure BufferedWriter where
  stream : Nat
  call : Nat
  firestoreQueue : Nat
  queue : List Write
  hasActiveWrite : Bool
  nextId : Nat
  active : Option Write
  started : List Write
  enqueued : List Write
  inflight : Nat
  deriving Repr, DecidableEq

namespace BufferedWriter

/-- The constructor (buffered_writer.h lines 53-57): stores the three
non-owning collaborator pointers; `queue_` starts empty and
`has_active_write_` starts `false` (member initializers, lines 77-78). -/
def init (stream call firestoreQueue : Nat) : BufferedWriter :=
  { stream := stream
    call := call
    firestoreQueue := firestoreQueue
    queue := []
    hasActiveWrite := false
    nextId := 0
    active := none
    started := []
    enqueued := []
    inflight := 0 }

/-- Method `empty()` (buffered_writer.h lines 59-61): `return queue_.empty();`. -/
def empty (w : BufferedWriter) : Bool :=
  w.queue.isEmpty

/-- Modelled from the spec: `TryStartWrite` (declared at buffered_writer.h
line 70; body not among the provided sources).  If no write is active and the
queue is non-empty, pops the front payload, asks the transport to begin an
in-flight write for it, sets the active flag and returns the in-flight
handle; otherwise does nothing and returns no handle. -/
def tryStartWrite (w : BufferedWriter) : Option WriteHandle × BufferedWriter :=
  if w.hasActiveWrite then
    (none, w)
  else
    match w.queue with
    | [] => (none, w)
    | e :: rest =>
        (some (WriteHandle.inflight e),
          { w with
              queue := rest
              hasActiveWrite := true
              active := some e
              started := w.started ++ [e]
              inflight := w.inflight + 1 })

/-- Modelled from the spec: `EnqueueWrite` (declared at buffered_writer.h
line 63; body not among the provided sources).  Appends the payload to the
queue in call order; if no write is active it is promoted immediately via
`tryStartWrite` and the in-flight handle is returned, otherwise the payload
stays buffered and a handle representing its queued state is returned. -/
def enqueueWrite (w : BufferedWriter) (p : Payload) : WriteHandle × BufferedWriter :=
  let e : Write := (w.nextId, p)
  let w1 := { w with
                queue := w.queue ++ [e]
                enqueued := w.enqueued ++ [e]
                nextId := w.nextId + 1 }
  match w1.tryStartWrite with
  | (some h, w2) => (h, w2)
  | (none, w2) => (WriteHandle.queued e, w2)

/-- Modelled from the spec: `DequeueNextWrite` (declared at buffered_writer.h
line 64; body not among the provided sources).  Precondition: a write is
currently active; violating it fails fast (modelled as `none`).  Clears the
active flag (the completed write leaves the transport), then promotes the
front of the queue, if any, via `tryStartWrite`. -/
def dequeueNextWrite (w : BufferedWriter) : Option (Option WriteHandle × BufferedWriter) :=
  if w.hasActiveWrite then
    some (tryStartWrite
      { w with
          hasActiveWrite := false
          active := none
          inflight := w.inflight - 1 })
  else
    none

/-- Modelled from the spec: `DiscardUnstartedWrites` (declared at
buffered_writer.h lines 66-67; body not among the provided sources).  Clears
the queue of not-yet-started payloads and touches nothing else. -/
def discardUnstartedWrites (w : BufferedWriter) : BufferedWriter :=
  { w with queue := [] }

/-- One client-visible operation on a `BufferedWriter`. -/
inductive Op where
  | enq (p : Payload)
  | deq
  | discard
  deriving Repr, DecidableEq

/-- Apply one operation; `none` means a precondition violation
(fail-fast abort). -/
def step (w : BufferedWriter) : Op → Option BufferedWriter
  | Op.enq p => some (w.enqueueWrite p).2
  | Op.deq => (w.dequeueNextWrite).map Prod.snd
  | Op.discard => some w.discardUnstartedWrites

/-- Run a sequence of operations; `none` if any operation aborted. -/
def run (w : BufferedWriter) : List Op → Option BufferedWriter
  | [] => some w
  | op :: ops =>
      match w.step op with
      | none => none
      | some w1 => w1.run ops

end BufferedWriter

/-- The reachable-state invariant of `BufferedWriter`: an idle writer has an
empty queue; the active flag holds exactly when one in-flight write exists
(and never more than one); the ghost `active` record matches the flag; the
active write is one of the started writes; submission indices are strictly
increasing along started writes followed by queued writes (hence the queue
never contains the active write) and all are below `nextId`; and the started
writes followed by the still-queued writes form a subsequence of the enqueued
writes (activation order is enqueue order). -/
structure BWInv (w : BufferedWriter) : Prop where
  idleEmpty : w.hasActiveWrite = false → w.queue = []
  inflightLe : w.inflight ≤ 1
  flagIffInflight : w.hasActiveWrite = true ↔ w.inflight = 1
  activeIffFlag : w.active.isSome = w.hasActiveWrite
  activeMemStarted : ∀ a, w.active = some a → a ∈ w.started
  pairwiseIds : List.Pairwise (fun x y : Write => x.1 < y.1) (w.started ++ w.queue)
  idsLt : ∀ e ∈ w.started ++ w.queue, e.1 < w.nextId
  subEnqueued : (w.started ++ w.queue).Sublist w.enqueued

/-- A concrete operation sequence used to witness the run invariant. -/
def opsC1 : List BufferedWriter.Op :=
  [BufferedWriter.Op.enq 5, BufferedWriter.Op.enq 6, BufferedWriter.Op.deq,
    BufferedWriter.Op.discard]

/-- The writer reached by running `opsC1` from a fresh writer. -/
def wC1 : BufferedWriter :=
  ((BufferedWriter.init 0 0 0).run opsC1).getD (BufferedWriter.init 0 0 0)

/-- A concrete Writing-state writer (one active write, one buffered write)
used to witness the DequeueNextWrite specification. -/
def wDeq : BufferedWriter :=
  { stream := 0
    call := 0
    firestoreQueue := 0
    queue := [(1, 11)]
    hasActiveWrite := true
    nextId := 2
    active := some (0, 10)
    started := [(0, 10)]
    enqueued := [(0, 10), (1, 11)]
    inflight := 1 }

/-- A concrete Writing-state writer (one active write, one buffered write)
used to witness the DiscardUnstartedWrites specification. -/
def wDisc : BufferedWriter :=
  { stream := 0
    call := 0
    firestoreQueue := 0
    queue := [(1, 21)]
    hasActiveWrite := true
    nextId := 2
    active := some (0, 20)
    started := [(0, 20)]
    enqueued := [(0, 20), (1, 21)]
    inflight := 1 }

/-! ### DelayedOperation (executor.h lines 29-48)

`DelayedOperation` stores a `std::function<void()> cancel_func_`.  A
`std::function` is modelled as `Option Nat`: `none` is the empty function
produced by the default constructor, `some k` an opaque captured callable.
Invoking an empty `std::function` throws `std::bad_function_call`; the
outcome of the call is modelled explicitly. -/

/-- Outcome of invoking the stored `cancel_func_`. -/
inductive CancelOutcome where
  | ran
  | badFunctionCall
  deriving Repr, DecidableEq

/-- The `DelayedOperation` handle (executor.h lines 31-48): its single data
member is the captured cancellation function `cancel_func_`. -/
structure DelayedOperation where
  cancelFunc : Option Nat
  deriving Repr, DecidableEq

/-- The default constructor (executor.h lines 33-34): leaves `cancel_func_`
as an empty `std::function`. -/
def DelayedOperation.mkDefault : DelayedOperation :=
  { cancelFunc := none }

/-- The internal constructor (executor.h lines 36-38): stores the callable. -/
def DelayedOperation.mkWithFunc (k : Nat) : DelayedOperation :=
  { cancelFunc := some k }

/-- Method `Cancel` (executor.h lines 42-44): the body is exactly
`cancel_func_();` with no emptiness check, so invoking it on a handle whose
`cancel_func_` is empty hits `std::bad_function_call`. -/
def DelayedOperation.cancelOp (d : DelayedOperation) : CancelOutcome :=
  match d.cancelFunc with
  | some _ => CancelOutcome.ran
  | none => CancelOutcome.badFunctionCall

/-! ### Scheduler (Executor contract, executor.h lines 54-107)

`Executor` is a pure virtual interface; no implementation is among the
provided sources.  The state below is modelled from the spec (sections 3,
4.2 and 9): a Schedule of pending delayed entries carrying due time and
submission order, a FIFO immediate queue, and execution logs as history
variables.  Cancellation follows the spec's design note: entries are keyed
by a generated id (here the submission counter) and `Cancel` removes the
id from the schedule, degrading to a no-op when it is absent. -/

/-- Struct `Executor::TaggedOperation` (executor.h lines 63-66): an opaque,
non-unique tag (`Tag = int`) plus a zero-argument callable, modelled as an
opaque work id. -/
structure TaggedOperation where
  tag : Int
  workId : Nat
  deriving Repr, DecidableEq

/-- Modelled from the spec: one pending entry of the Schedule.  `seq` is the
generated id / submission counter (the spec's stable tie-break key), `due`
the absolute due time in milliseconds. -/
structure SchedEntry where
  seq : Nat
  due : Nat
  top : TaggedOperation
  deriving Repr, DecidableEq

/-- Modelled from the spec: the observable state of one Executor instance.
`schedule` holds pending delayed entries in submission order;
`immediateQueue` holds work submitted via Execute, FIFO; `submittedImmediate`,
`ranImmediate` and `ranScheduled` are history variables recording submission
and execution orders. -/
structure ExecutorState where
  now : Nat
  nextSeq : Nat
  schedule : List SchedEntry
  immediateQueue : List Nat
  submittedImmediate : List Nat
  ranImmediate : List Nat
  ranScheduled : List Nat
  deriving Repr, DecidableEq

namespace ExecutorState

/-- A fresh executor: empty schedule, empty immediate queue, nothing run. -/
def initEx : ExecutorState :=
  { now := 0
    nextSeq := 0
    schedule := []
    immediateQueue := []
    submittedImmediate := []
    ranImmediate := []
    ranScheduled := [] }

/-- Modelled from the spec: `Execute` (declared at executor.h line 74) -
submits work for asynchronous execution as soon as possible; back-to-back
submissions are FIFO ordered. -/
def execute (s : ExecutorState) (workId : Nat) : ExecutorState :=
  { s with
      immediateQueue := s.immediateQueue ++ [workId]
      submittedImmediate := s.submittedImmediate ++ [workId] }

/-- Modelled from the spec: `ScheduleExecution` (declared at executor.h
lines 85-86) - schedules the tagged operation after a non-negative delay
(fails fast on a negative delay, modelled as `none`) and returns the
generated id that the returned `DelayedOperation` handle captures. -/
def scheduleExecution (s : ExecutorState) (delay : Int) (top : TaggedOperation) :
    Option (Nat × ExecutorState) :=
  if delay < 0 then
    none
  else
    some (s.nextSeq,
      { s with
          schedule := s.schedule ++ [{ seq := s.nextSeq, due := s.now + delay.toNat, top := top }]
          nextSeq := s.nextSeq + 1 })

/-- Modelled from the spec: the effect of `DelayedOperation.Cancel` on the
executor, per the spec's registration design: remove the entry keyed by the
generated id from the Schedule; a no-op when no such entry is pending. -/
def cancelId (s : ExecutorState) (id : Nat) : ExecutorState :=
  { s with schedule := s.schedule.filter (fun e => e.seq != id) }

/-- Select the entry with the smallest due time from a non-empty collection
(given as first entry plus remaining list), keeping the first such entry on
ties, and return it together with the remaining entries in order. -/
def selectEarliest : SchedEntry → List SchedEntry → SchedEntry × List SchedEntry
  | best, [] => (best, [])
  | best, e :: rest =>
      if e.due < best.due then
        ((selectEarliest e rest).1, best :: (selectEarliest e rest).2)
      else
        ((selectEarliest best rest).1, e :: (selectEarliest best rest).2)

/-- Modelled from the spec: `PopFromSchedule` (declared at executor.h
line 106) - removes and returns, without running it, the pending entry with
the smallest due time (ties resolved towards earlier submission); calling it
on an empty Schedule fails fast (modelled as `none`). -/
def popFromSchedule (s : ExecutorState) : Option (SchedEntry × ExecutorState) :=
  match s.schedule with
  | [] => none
  | e :: rest =>
      some ((selectEarliest e rest).1,
        { s with schedule := (selectEarliest e rest).2 })

/-- Modelled from the spec: the executor runs the front of the immediate
queue (a no-op if no immediate work is pending). -/
def runImmediateStep (s : ExecutorState) : ExecutorState :=
  match s.immediateQueue with
  | [] => s
  | workId :: rest =>
      { s with
          immediateQueue := rest
          ranImmediate := s.ranImmediate ++ [workId] }

/-- Modelled from the spec: the executor fires the earliest due pending
scheduled entry, removing it from the Schedule and running its work
(a no-op if the Schedule is empty). -/
def fireStep (s : ExecutorState) : ExecutorState :=
  match s.schedule with
  | [] => s
  | e :: rest =>
      { s with
          schedule := (selectEarliest e rest).2
          ranScheduled := s.ranScheduled ++ [(selectEarliest e rest).1.seq]
          now := max s.now (selectEarliest e rest).1.due }

/-- One observable event on an Executor instance. -/
inductive ExOp where
  | exec (workId : Nat)
  | sched (delay : Int) (top : TaggedOperation)
  | cancel (id : Nat)
  | runImm
  | fire
  deriving Repr, DecidableEq

/-- Apply one event; `none` means a fail-fast precondition violation. -/
def stepEx (s : ExecutorState) : ExOp → Option ExecutorState
  | ExOp.exec workId => some (s.execute workId)
  | ExOp.sched delay top => (s.scheduleExecution delay top).map Prod.snd
  | ExOp.cancel id => some (s.cancelId id)
  | ExOp.runImm => some s.runImmediateStep
  | ExOp.fire => some s.fireStep

/-- Run a sequence of events; `none` if any event failed fast. -/
def runEx (s : ExecutorState) : List ExOp → Option ExecutorState
  | [] => some s
  | op :: ops =>
      match s.stepEx op with
      | none => none
      | some s1 => s1.runEx ops

end ExecutorState

/-- A concrete executor state used to witness the Cancel specification:
two pending entries and one already-fired entry. -/
def sCancel : ExecutorState :=
  { now := 0
    nextSeq := 3
    schedule := [{ seq := 0, due := 100, top := { tag := 7, workId := 70 } },
      { seq := 2, due := 50, top := { tag := 8, workId := 80 } }]
    immediateQueue := []
    submittedImmediate := []
    ranImmediate := []
    ranScheduled := [1] }

/-- A concrete event sequence used to witness the Cancel specification. -/
def opsCancel : List ExecutorState.ExOp :=
  [ExecutorState.ExOp.sched 25 { tag := 9, workId := 90 },
    ExecutorState.ExOp.fire, ExecutorState.ExOp.fire, ExecutorState.ExOp.fire]

/-- A concrete executor state used to witness the PopFromSchedule
specification: the spec section 8 scenario, a tag:7 entry due at 100
scheduled before a tag:8 entry due at 50. -/
def sPop : ExecutorState :=
  { now := 0
    nextSeq := 2
    schedule := [{ seq := 0, due := 100, top := { tag := 7, workId := 70 } },
      { seq := 1, due := 50, top := { tag := 8, workId := 80 } }]
    immediateQueue := []
    submittedImmediate := []
    ranImmediate := []
    ranScheduled := [] }

/-- A concrete event sequence used to witness the Execute FIFO
specification. -/
def opsFifo : List ExecutorState.ExOp :=
  [ExecutorState.ExOp.exec 1, ExecutorState.ExOp.exec 2,
    ExecutorState.ExOp.runImm, ExecutorState.ExOp.exec 3,
    ExecutorState.ExOp.sched 5 { tag := 1, workId := 42 },
    ExecutorState.ExOp.fire, ExecutorState.ExOp.runImm]

/-- The executor state reached by running `opsFifo` from a fresh executor. -/
def sFifo : ExecutorState :=
  (ExecutorState.initEx.runEx opsFifo).getD ExecutorState.initEx

end Firestore

namespace Firestore

/-- C10: a freshly constructed BufferedWriter starts Idle: the active-write
flag is false, the buffered queue is empty, `empty()` returns true before any
EnqueueWrite call, and the constructor only stores the three non-owning
collaborator pointers. -/
theorem bufferedWriter_init_idle (s c f : Nat) :
    (BufferedWriter.init s c f).hasActiveWrite = false ∧
    (BufferedWriter.init s c f).queue = [] ∧
    (BufferedWriter.init s c f).empty = true ∧
    (BufferedWriter.init s c f).stream = s ∧
    (BufferedWriter.init s c f).call = c ∧
    (BufferedWriter.init s c f).firestoreQueue = f := by
  refine ⟨rfl, rfl, rfl, rfl, rfl, rfl⟩

/-- Witness for C10 at concrete pointers. -/
theorem bufferedWriter_init_idle_witness :
    (BufferedWriter.init 3 5 7).hasActiveWrite = false ∧
    (BufferedWriter.init 3 5 7).queue = [] ∧
    (BufferedWriter.init 3 5 7).empty = true ∧
    (BufferedWriter.init 3 5 7).stream = 3 ∧
    (BufferedWriter.init 3 5 7).call = 5 ∧
    (BufferedWriter.init 3 5 7).firestoreQueue = 7 :=
  bufferedWriter_init_idle 3 5 7

/-- C4: EnqueueWrite appends the payload in call order; if no write is active
it immediately makes that payload the active write (removing it from the
queue, starting an in-flight write, setting the active flag) and returns the
in-flight handle; if a write is already active the payload stays buffered and
the returned handle represents its not-yet-started state.  The hypothesis is
the reachable-state fact that an idle writer has an empty queue
(established by `bufferedWriter_run_invariants`). -/
theorem enqueueWrite_spec (w : BufferedWriter) (p : Payload)
    (hidle : w.hasActiveWrite = false → w.queue = []) :
    (w.enqueueWrite p).2.enqueued = w.enqueued ++ [(w.nextId, p)] ∧
    (w.hasActiveWrite = false →
      (w.enqueueWrite p).1 = WriteHandle.inflight (w.nextId, p) ∧
      (w.enqueueWrite p).2.hasActiveWrite = true ∧
      (w.enqueueWrite p).2.active = some (w.nextId, p) ∧
      (w.enqueueWrite p).2.queue = [] ∧
      (w.enqueueWrite p).2.started = w.started ++ [(w.nextId, p)] ∧
      (w.enqueueWrite p).2.inflight = w.inflight + 1) ∧
    (w.hasActiveWrite = true →
      (w.enqueueWrite p).1 = WriteHandle.queued (w.nextId, p) ∧
      (w.enqueueWrite p).2.queue = w.queue ++ [(w.nextId, p)] ∧
      (w.enqueueWrite p).2.hasActiveWrite = true ∧
      (w.enqueueWrite p).2.active = w.active ∧
      (w.enqueueWrite p).2.started = w.started ∧
      (w.enqueueWrite p).2.inflight = w.inflight) := by
  cases hA : w.hasActiveWrite with
  | false =>
      have hq : w.queue = [] := hidle hA
      refine ⟨?_, ?_, ?_⟩
      · simp [BufferedWriter.enqueueWrite, BufferedWriter.tryStartWrite, hA, hq]
      · intro _
        refine ⟨?_, ?_, ?_, ?_, ?_, ?_⟩ <;>
          simp [BufferedWriter.enqueueWrite, BufferedWriter.tryStartWrite, hA, hq]
      · intro hcontra
        exact absurd hcontra (by simp)
  | true =>
      refine ⟨?_, ?_, ?_⟩
      · simp [BufferedWriter.enqueueWrite, BufferedWriter.tryStartWrite, hA]
      · intro hcontra
        exact absurd hcontra (by simp)
      · intro _
        refine ⟨?_, ?_, ?_, ?_, ?_, ?_⟩ <;>
          simp [BufferedWriter.enqueueWrite, BufferedWriter.tryStartWrite, hA]

/-- Witness for C4: enqueue into a fresh (idle, empty-queue) writer. -/
theorem enqueueWrite_spec_witness :
    ((BufferedWriter.init 0 0 0).enqueueWrite 42).2.enqueued =
        (BufferedWriter.init 0 0 0).enqueued ++ [((BufferedWriter.init 0 0 0).nextId, 42)] ∧
    ((BufferedWriter.init 0 0 0).hasActiveWrite = false →
      ((BufferedWriter.init 0 0 0).enqueueWrite 42).1 =
          WriteHandle.inflight ((BufferedWriter.init 0 0 0).nextId, 42) ∧
      ((BufferedWriter.init 0 0 0).enqueueWrite 42).2.hasActiveWrite = true ∧
      ((BufferedWriter.init 0 0 0).enqueueWrite 42).2.active =
          some ((BufferedWriter.init 0 0 0).nextId, 42) ∧
      ((BufferedWriter.init 0 0 0).enqueueWrite 42).2.queue = [] ∧
      ((BufferedWriter.init 0 0 0).enqueueWrite 42).2.started =
          (BufferedWriter.init 0 0 0).started ++ [((BufferedWriter.init 0 0 0).nextId, 42)] ∧
      ((BufferedWriter.init 0 0 0).enqueueWrite 42).2.inflight =
          (BufferedWriter.init 0 0 0).inflight + 1) ∧
    ((BufferedWriter.init 0 0 0).hasActiveWrite = true →
      ((BufferedWriter.init 0 0 0).enqueueWrite 42).1 =
          WriteHandle.queued ((BufferedWriter.init 0 0 0).nextId, 42) ∧
      ((BufferedWriter.init 0 0 0).enqueueWrite 42).2.queue =
          (BufferedWriter.init 0 0 0).queue ++ [((BufferedWriter.init 0 0 0).nextId, 42)] ∧
      ((BufferedWriter.init 0 0 0).enqueueWrite 42).2.hasActiveWrite = true ∧
      ((BufferedWriter.init 0 0 0).enqueueWrite 42).2.active = (BufferedWriter.init 0 0 0).active ∧
      ((BufferedWriter.init 0 0 0).enqueueWrite 42).2.started = (BufferedWriter.init 0 0 0).started ∧
      ((BufferedWriter.init 0 0 0).enqueueWrite 42).2.inflight =
          (BufferedWriter.init 0 0 0).inflight) :=
  enqueueWrite_spec (BufferedWriter.init 0 0 0) 42 (fun _ => rfl)

/-- C5: under the precondition that a write is currently active,
DequeueNextWrite clears the active flag; if the buffered queue is non-empty
it pops the front entry, starts it as the new active write and returns its
handle; if the queue is empty it leaves the active flag false and returns
none.  Calling it with no active write is a precondition violation that
fails fast (modelled as `none`, not a recoverable result). -/
theorem dequeueNextWrite_spec (w : BufferedWriter) :
    (w.hasActiveWrite = false → w.dequeueNextWrite = none) ∧
    (w.hasActiveWrite = true →
      (w.queue = [] → ∃ w2,
        w.dequeueNextWrite = some (none, w2) ∧
        w2.hasActiveWrite = false ∧
        w2.active = none ∧
        w2.queue = [] ∧
        w2.started = w.started ∧
        w2.inflight = w.inflight - 1) ∧
      (∀ e rest, w.queue = e :: rest → ∃ w2,
        w.dequeueNextWrite = some (some (WriteHandle.inflight e), w2) ∧
        w2.hasActiveWrite = true ∧
        w2.active = some e ∧
        w2.queue = rest ∧
        w2.started = w.started ++ [e] ∧
        w2.inflight = w.inflight - 1 + 1)) := by
  constructor
  · intro hA
    simp [BufferedWriter.dequeueNextWrite, hA]
  · intro hA
    constructor
    · intro hq
      refine ⟨{ w with hasActiveWrite := false, active := none, inflight := w.inflight - 1 }, ?_, rfl, rfl, hq, rfl, rfl⟩
      simp [BufferedWriter.dequeueNextWrite, BufferedWriter.tryStartWrite, hA, hq]
    · intro e rest hq
      refine ⟨{ w with queue := rest, hasActiveWrite := true, active := some e, started := w.started ++ [e], inflight := w.inflight - 1 + 1 }, ?_, rfl, rfl, rfl, rfl, rfl⟩
      simp [BufferedWriter.dequeueNextWrite, BufferedWriter.tryStartWrite, hA, hq]

/-- Witness for C5: dequeue with one active write and one buffered write. -/
theorem dequeueNextWrite_spec_witness :
    (wDeq.hasActiveWrite = false → wDeq.dequeueNextWrite = none) ∧
    (wDeq.hasActiveWrite = true →
      (wDeq.queue = [] → ∃ w2,
        wDeq.dequeueNextWrite = some (none, w2) ∧
        w2.hasActiveWrite = false ∧
        w2.active = none ∧
        w2.queue = [] ∧
        w2.started = wDeq.started ∧
        w2.inflight = wDeq.inflight - 1) ∧
      (∀ e rest, wDeq.queue = e :: rest → ∃ w2,
        wDeq.dequeueNextWrite = some (some (WriteHandle.inflight e), w2) ∧
        w2.hasActiveWrite = true ∧
        w2.active = some e ∧
        w2.queue = rest ∧
        w2.started = wDeq.started ++ [e] ∧
        w2.inflight = wDeq.inflight - 1 + 1)) :=
  dequeueNextWrite_spec wDeq

/-- C9: DiscardUnstartedWrites empties the buffered queue and changes nothing
else: the currently active write (if any), the active flag and the in-flight
count are unchanged in every state; afterwards `empty()` is true, and if a
write was active the next DequeueNextWrite returns none and the writer
becomes Idle. -/
theorem discardUnstartedWrites_spec (w : BufferedWriter) :
    w.discardUnstartedWrites.queue = [] ∧
    w.discardUnstartedWrites.active = w.active ∧
    w.discardUnstartedWrites.hasActiveWrite = w.hasActiveWrite ∧
    w.discardUnstartedWrites.inflight = w.inflight ∧
    w.discardUnstartedWrites.started = w.started ∧
    w.discardUnstartedWrites.empty = true ∧
    (w.hasActiveWrite = true → ∃ w2,
      w.discardUnstartedWrites.dequeueNextWrite = some (none, w2) ∧
      w2.hasActiveWrite = false ∧
      w2.active = none ∧
      w2.queue = []) := by
  refine ⟨rfl, rfl, rfl, rfl, rfl, rfl, ?_⟩
  intro hA
  refine ⟨{ w with queue := [], hasActiveWrite := false, active := none, inflight := w.inflight - 1 }, ?_, rfl, rfl, rfl⟩
  simp [BufferedWriter.discardUnstartedWrites, BufferedWriter.dequeueNextWrite,
    BufferedWriter.tryStartWrite, hA]

/-- Witness for C9 at a concrete Writing-state writer with a buffered entry. -/
theorem discardUnstartedWrites_spec_witness :
    wDisc.discardUnstartedWrites.queue = [] ∧
    wDisc.discardUnstartedWrites.active = wDisc.active ∧
    wDisc.discardUnstartedWrites.hasActiveWrite = wDisc.hasActiveWrite ∧
    wDisc.discardUnstartedWrites.inflight = wDisc.inflight ∧
    wDisc.discardUnstartedWrites.started = wDisc.started ∧
    wDisc.discardUnstartedWrites.empty = true ∧
    (wDisc.hasActiveWrite = true → ∃ w2,
      wDisc.discardUnstartedWrites.dequeueNextWrite = some (none, w2) ∧
      w2.hasActiveWrite = false ∧
      w2.active = none ∧
      w2.queue = []) :=
  discardUnstartedWrites_spec wDisc

/-- A fresh writer satisfies the reachable-state invariant. -/
theorem BWInv.init (s c f : Nat) : BWInv (BufferedWriter.init s c f) := by
  refine ⟨fun _ => rfl, ?_, ?_, rfl, ?_, ?_, ?_, ?_⟩
  · exact Nat.zero_le 1
  · simp [BufferedWriter.init]
  · intro a ha
    exact absurd ha (by simp [BufferedWriter.init])
  · exact List.Pairwise.nil
  · intro e he
    exact absurd he (by simp [BufferedWriter.init])
  · exact List.nil_sublist _

/-- EnqueueWrite preserves the reachable-state invariant. -/
theorem BWInv.enq {w : BufferedWriter} (inv : BWInv w) (p : Payload) :
    BWInv (w.enqueueWrite p).2 := by
  cases hA : w.hasActiveWrite with
  | true =>
      have hq2 : (w.enqueueWrite p).2 =
          { w with queue := w.queue ++ [(w.nextId, p)], enqueued := w.enqueued ++ [(w.nextId, p)], nextId := w.nextId + 1 } := by
        simp [BufferedWriter.enqueueWrite, BufferedWriter.tryStartWrite, hA]
      rw [hq2]
      refine ⟨?_, inv.inflightLe, inv.flagIffInflight, inv.activeIffFlag,
        inv.activeMemStarted, ?_, ?_, ?_⟩
      · intro h
        rw [hA] at h
        exact absurd h (by simp)
      · rw [← List.append_assoc]
        refine List.pairwise_append.mpr ⟨inv.pairwiseIds, List.pairwise_singleton _ _, ?_⟩
        intro x hx y hy
        rw [List.mem_singleton] at hy
        subst hy
        exact inv.idsLt x hx
      · intro e he
        rw [← List.append_assoc] at he
        rcases List.mem_append.mp he with h1 | h1
        · exact Nat.lt_succ_of_lt (inv.idsLt e h1)
        · rw [List.mem_singleton] at h1
          subst h1
          exact Nat.lt_succ_self _
      · rw [← List.append_assoc]
        exact List.Sublist.append inv.subEnqueued (List.Sublist.refl _)
  | false =>
      have hq : w.queue = [] := inv.idleEmpty hA
      have h0 : w.inflight = 0 := by
        have h1 : w.inflight ≠ 1 := by
          intro h
          have := inv.flagIffInflight.mpr h
          rw [hA] at this
          exact absurd this (by simp)
        have h2 := inv.inflightLe
        omega
      have hq2 : (w.enqueueWrite p).2 =
          { w with queue := [], hasActiveWrite := true, nextId := w.nextId + 1, active := some (w.nextId, p), started := w.started ++ [(w.nextId, p)], enqueued := w.enqueued ++ [(w.nextId, p)], inflight := w.inflight + 1 } := by
        simp [BufferedWriter.enqueueWrite, BufferedWriter.tryStartWrite, hA, hq]
      rw [hq2]
      have hstq : w.started ++ w.queue = w.started := by
        rw [hq, List.append_nil]
      refine ⟨?_, ?_, ?_, rfl, ?_, ?_, ?_, ?_⟩
      · intro h
        exact absurd h (by simp)
      · rw [h0]
      · rw [h0]
        simp
      · intro a ha
        rw [Option.some_inj] at ha
        subst ha
        exact List.mem_append_right _ (List.mem_singleton.mpr rfl)
      · rw [List.append_nil]
        refine List.pairwise_append.mpr ⟨?_, List.pairwise_singleton _ _, ?_⟩
        · have := inv.pairwiseIds
          rw [hstq] at this
          exact this
        · intro x hx y hy
          rw [List.mem_singleton] at hy
          subst hy
          exact inv.idsLt x (by rw [hstq]; exact hx)
      · intro e he
        rw [List.append_nil] at he
        rcases List.mem_append.mp he with h1 | h1
        · exact Nat.lt_succ_of_lt (inv.idsLt e (by rw [hstq]; exact h1))
        · rw [List.mem_singleton] at h1
          subst h1
          exact Nat.lt_succ_self _
      · rw [List.append_nil]
        have hs : w.started.Sublist w.enqueued := by
          have := inv.subEnqueued
          rw [hstq] at this
          exact this
        exact List.Sublist.append hs (List.Sublist.refl _)

/-- DequeueNextWrite preserves the reachable-state invariant. -/
theorem BWInv.deq {w w2 : BufferedWriter} (inv : BWInv w)
    (h : w.step BufferedWriter.Op.deq = some w2) : BWInv w2 := by
  cases hA : w.hasActiveWrite with
  | false =>
      rw [BufferedWriter.step] at h
      rw [BufferedWriter.dequeueNextWrite, hA] at h
      exact absurd h (by simp)
  | true =>
      have hInf : w.inflight = 1 := inv.flagIffInflight.mp hA
      cases hq : w.queue with
      | nil =>
          have hw2 : w2 = { w with queue := [], hasActiveWrite := false, active := none, inflight := w.inflight - 1 } := by
            rw [BufferedWriter.step] at h
            rw [BufferedWriter.dequeueNextWrite, hA] at h
            rw [BufferedWriter.tryStartWrite] at h
            simp [hq] at h
            exact h.symm
          subst hw2
          have hstq : w.started ++ w.queue = w.started := by
            rw [hq, List.append_nil]
          refine ⟨fun _ => rfl, ?_, ?_, rfl, ?_, ?_, ?_, ?_⟩
          · show w.inflight - 1 ≤ 1
            omega
          · show (false = true) ↔ w.inflight - 1 = 1
            rw [hInf]
            simp
          · intro a ha
            exact absurd ha (by simp)
          · show List.Pairwise _ (w.started ++ [])
            rw [List.append_nil, ← hstq]
            exact inv.pairwiseIds
          · intro e he
            show e.1 < w.nextId
            rw [show ({ w with queue := [], hasActiveWrite := false, active := none, inflight := w.inflight - 1 } : BufferedWriter).started ++ ({ w with queue := [], hasActiveWrite := false, active := none, inflight := w.inflight - 1 } : BufferedWriter).queue = w.started ++ [] from rfl, List.append_nil, ← hstq] at he
            exact inv.idsLt e he
          · show (w.started ++ []).Sublist w.enqueued
            rw [List.append_nil, ← hstq]
            exact inv.subEnqueued
      | cons e rest =>
          have hw2 : w2 = { w with queue := rest, hasActiveWrite := true, active := some e, started := w.started ++ [e], inflight := w.inflight - 1 + 1 } := by
            rw [BufferedWriter.step] at h
            rw [BufferedWriter.dequeueNextWrite, hA] at h
            rw [BufferedWriter.tryStartWrite] at h
            simp [hq] at h
            exact h.symm
          subst hw2
          have hre : w.started ++ [e] ++ rest = w.started ++ w.queue := by
            rw [List.append_assoc, List.singleton_append, ← hq]
          refine ⟨?_, ?_, ?_, rfl, ?_, ?_, ?_, ?_⟩
          · intro hcontra
            exact absurd hcontra (by simp)
          · show w.inflight - 1 + 1 ≤ 1
            omega
          · show (true = true) ↔ w.inflight - 1 + 1 = 1
            rw [hInf]
            simp
          · intro a ha
            rw [Option.some_inj] at ha
            subst ha
            exact List.mem_append_right _ (List.mem_singleton.mpr rfl)
          · rw [hre]
            exact inv.pairwiseIds
          · intro x hx
            rw [hre] at hx
            exact inv.idsLt x hx
          · rw [hre]
            exact inv.subEnqueued

/-- DiscardUnstartedWrites preserves the reachable-state invariant. -/
theorem BWInv.discard {w : BufferedWriter} (inv : BWInv w) :
    BWInv w.discardUnstartedWrites := by
  refine ⟨fun _ => rfl, inv.inflightLe, inv.flagIffInflight, inv.activeIffFlag,
    inv.activeMemStarted, ?_, ?_, ?_⟩
  · show List.Pairwise _ (w.started ++ [])
    rw [List.append_nil]
    exact List.Pairwise.sublist (List.sublist_append_left _ _) inv.pairwiseIds
  · intro e he
    show e.1 < w.nextId
    rw [show w.discardUnstartedWrites.started ++ w.discardUnstartedWrites.queue = w.started ++ [] from rfl, List.append_nil] at he
    exact inv.idsLt e (List.mem_append_left _ he)
  · show (w.started ++ []).Sublist w.enqueued
    rw [List.append_nil]
    exact List.Sublist.trans (List.sublist_append_left _ _) inv.subEnqueued

/-- Every single step preserves the reachable-state invariant. -/
theorem BWInv.stepPreserves {w w2 : BufferedWriter} (inv : BWInv w)
    {op : BufferedWriter.Op} (h : w.step op = some w2) : BWInv w2 := by
  cases op with
  | enq p =>
      rw [BufferedWriter.step] at h
      rw [Option.some_inj] at h
      subst h
      exact inv.enq p
  | deq => exact inv.deq h
  | discard =>
      rw [BufferedWriter.step] at h
      rw [Option.some_inj] at h
      subst h
      exact inv.discard

/-- Every successful run from an invariant state ends in an invariant state. -/
theorem BWInv.runPreserves {w : BufferedWriter} (inv : BWInv w)
    (ops : List BufferedWriter.Op) {w2 : BufferedWriter}
    (h : w.run ops = some w2) : BWInv w2 := by
  induction ops generalizing w with
  | nil =>
      rw [BufferedWriter.run, Option.some_inj] at h
      subst h
      exact inv
  | cons op ops ih =>
      rw [BufferedWriter.run] at h
      cases hs : w.step op with
      | none => rw [hs] at h; exact absurd h (by simp)
      | some w1 =>
          rw [hs] at h
          exact ih (inv.stepPreserves hs) h

/-- C1: for every sequence of BufferedWriter operations run from a fresh
writer, at most one write is in flight at any time and the active flag holds
exactly when one in-flight write exists; the buffered queue never contains
the currently active write; and writes become active in exactly the order
their EnqueueWrite calls were made (the activation trace is a subsequence of
the enqueue trace, with strictly increasing submission indices), never
reordered and never started while another write is active. -/
theorem bufferedWriter_run_invariants (s c f : Nat) (ops : List BufferedWriter.Op)
    (w : BufferedWriter) (h : (BufferedWriter.init s c f).run ops = some w) :
    w.inflight ≤ 1 ∧
    (w.hasActiveWrite = true ↔ w.inflight = 1) ∧
    (∀ a, w.active = some a → a ∉ w.queue) ∧
    w.started.Sublist w.enqueued ∧
    List.Pairwise (fun x y : Write => x.1 < y.1) w.started := by
  have inv : BWInv w := (BWInv.init s c f).runPreserves ops h
  refine ⟨inv.inflightLe, inv.flagIffInflight, ?_, ?_, ?_⟩
  · intro a ha hmem
    have haS : a ∈ w.started := inv.activeMemStarted a ha
    have hlt := (List.pairwise_append.mp inv.pairwiseIds).2.2 a haS a hmem
    exact absurd hlt (lt_irrefl _)
  · exact List.Sublist.trans (List.sublist_append_left _ _) inv.subEnqueued
  · exact List.Pairwise.sublist (List.sublist_append_left _ _) inv.pairwiseIds

/-- Witness for C1: a concrete four-operation run. -/
theorem bufferedWriter_run_invariants_witness :
    wC1.inflight ≤ 1 ∧
    (wC1.hasActiveWrite = true ↔ wC1.inflight = 1) ∧
    (∀ a, wC1.active = some a → a ∉ wC1.queue) ∧
    wC1.started.Sublist wC1.enqueued ∧
    List.Pairwise (fun x y : Write => x.1 < y.1) wC1.started :=
  bufferedWriter_run_invariants 0 0 0 opsC1 wC1 (by decide)

/-- C2 (code evidence): `Cancel` on a default-constructed DelayedOperation
is not a no-op: the body `cancel_func_();` invokes the empty
`std::function` stored by the default constructor, which faults with
`std::bad_function_call`. -/
theorem delayedOperation_default_cancel_faults :
    DelayedOperation.mkDefault.cancelOp = CancelOutcome.badFunctionCall :=
  rfl

namespace ExecutorState

/-- The selected entry together with the remaining entries permute the
input entries. -/
theorem selectEarliest_perm (best : SchedEntry) (l : List SchedEntry) :
    List.Perm (best :: l)
      ((selectEarliest best l).1 :: (selectEarliest best l).2) := by
  induction l generalizing best with
  | nil => exact List.Perm.refl _
  | cons e rest ih =>
      rw [selectEarliest]
      by_cases h : e.due < best.due
      · rw [if_pos h]
        exact List.Perm.trans (List.Perm.cons best (ih e))
          (List.Perm.swap (selectEarliest e rest).1 best (selectEarliest e rest).2)
      · rw [if_neg h]
        refine List.Perm.trans (List.Perm.swap e best rest) ?_
        exact List.Perm.trans (List.Perm.cons e (ih best))
          (List.Perm.swap (selectEarliest best rest).1 e (selectEarliest best rest).2)

/-- The selected entry has the smallest due time of all input entries. -/
theorem selectEarliest_min (best : SchedEntry) (l : List SchedEntry) :
    ∀ x ∈ best :: l, (selectEarliest best l).1.due ≤ x.due := by
  induction l generalizing best with
  | nil =>
      intro x hx
      rw [List.mem_singleton] at hx
      subst hx
      exact Nat.le_refl _
  | cons e rest ih =>
      intro x hx
      rw [selectEarliest]
      by_cases h : e.due < best.due
      · rw [if_pos h]
        rcases List.mem_cons.mp hx with h1 | h1
        · subst h1
          exact Nat.le_trans (ih e e (List.mem_cons_self e rest)) (Nat.le_of_lt h)
        · exact ih e x h1
      · rw [if_neg h]
        rcases List.mem_cons.mp hx with h1 | h1
        · rw [h1]
          exact ih best best (List.mem_cons_self best rest)
        · rcases List.mem_cons.mp h1 with h2 | h2
          · rw [h2]
            exact Nat.le_trans (ih best best (List.mem_cons_self best rest)) (Nat.le_of_not_lt h)
          · exact ih best x (List.mem_cons_of_mem best h2)

/-- The selected entry is the first entry unless a strictly earlier-due
entry occurs later in the input. -/
theorem selectEarliest_fst (best : SchedEntry) (l : List SchedEntry) :
    (selectEarliest best l).1 = best ∨
      ((selectEarliest best l).1 ∈ l ∧ (selectEarliest best l).1.due < best.due) := by
  induction l generalizing best with
  | nil => exact Or.inl rfl
  | cons e rest ih =>
      rw [selectEarliest]
      by_cases h : e.due < best.due
      · rw [if_pos h]
        rcases ih e with h1 | ⟨h1, h2⟩
        · exact Or.inr ⟨by rw [h1]; exact List.mem_cons_self e rest, by rw [h1]; exact h⟩
        · exact Or.inr ⟨List.mem_cons_of_mem e h1, Nat.lt_trans h2 h⟩
      · rw [if_neg h]
        rcases ih best with h1 | ⟨h1, h2⟩
        · exact Or.inl h1
        · exact Or.inr ⟨List.mem_cons_of_mem e h1, h2⟩

/-- Stable tie-break: when the input entries carry strictly increasing
submission counters, the selected entry precedes (in submission order) every
entry of equal due time. -/
theorem selectEarliest_tie (l : List SchedEntry) :
    ∀ best : SchedEntry,
      List.Pairwise (fun a b : SchedEntry => a.seq < b.seq) (best :: l) →
      ∀ x ∈ best :: l, x.due = (selectEarliest best l).1.due →
        (selectEarliest best l).1.seq ≤ x.seq := by
  induction l with
  | nil =>
      intro best _ x hx _
      rw [List.mem_singleton] at hx
      subst hx
      exact Nat.le_refl _
  | cons e rest ih =>
      intro best hp x hx hdue
      simp only [selectEarliest] at hdue ⊢
      by_cases h : e.due < best.due
      · rw [if_pos h] at hdue ⊢
        simp only at hdue ⊢
        rcases List.mem_cons.mp hx with h1 | h1
        · subst h1
          have hle : (selectEarliest e rest).1.due ≤ e.due :=
            selectEarliest_min e rest e (List.mem_cons_self e rest)
          exact absurd hdue (by omega)
        · exact ih e (List.Pairwise.sublist (List.sublist_cons_self best (e :: rest)) hp)
            x h1 hdue
      · rw [if_neg h] at hdue ⊢
        simp only at hdue ⊢
        have hp2 : List.Pairwise (fun a b : SchedEntry => a.seq < b.seq) (best :: rest) := by
          refine List.Pairwise.sublist ?_ hp
          exact List.Sublist.cons_cons best (List.sublist_cons_self e rest)
        rcases List.mem_cons.mp hx with h1 | h1
        · rw [h1] at hdue ⊢
          exact ih best hp2 best (List.mem_cons_self best rest) hdue
        · rcases List.mem_cons.mp h1 with h2 | h2
          · rw [h2] at hdue ⊢
            rcases selectEarliest_fst best rest with h3 | ⟨h3, h4⟩
            · rw [h3]
              have hseq : best.seq < e.seq :=
                (List.pairwise_cons.mp hp).1 e (List.mem_cons_self e rest)
              exact Nat.le_of_lt hseq
            · have h5 : (selectEarliest best rest).1.due ≤ best.due :=
                selectEarliest_min best rest best (List.mem_cons_self best rest)
              have h6 : best.due ≤ e.due := Nat.le_of_not_lt h
              exact absurd hdue (by omega)
          · exact ih best hp2 x (List.mem_cons_of_mem best h2) hdue

end ExecutorState

/-- C7: under the precondition that the Schedule is non-empty,
PopFromSchedule removes and returns, without running it, the pending entry
with the smallest due time, breaking ties between entries of equal due time
by submission order (stable FIFO); calling it on an empty Schedule fails
fast.  The hypothesis is the construction invariant that pending entries
carry strictly increasing submission counters. -/
theorem popFromSchedule_spec (s : ExecutorState)
    (hsorted : List.Pairwise (fun a b : SchedEntry => a.seq < b.seq) s.schedule) :
    (s.schedule = [] → s.popFromSchedule = none) ∧
    (∀ e rest, s.schedule = e :: rest → ∃ b s2,
      s.popFromSchedule = some (b, s2) ∧
      b ∈ s.schedule ∧
      (∀ x ∈ s.schedule, b.due ≤ x.due) ∧
      (∀ x ∈ s.schedule, x.due = b.due → b.seq ≤ x.seq) ∧
      List.Perm s.schedule (b :: s2.schedule) ∧
      s2.ranScheduled = s.ranScheduled ∧
      s2.ranImmediate = s.ranImmediate ∧
      s2.immediateQueue = s.immediateQueue) := by
  constructor
  · intro h
    rw [ExecutorState.popFromSchedule, h]
  · intro e rest h
    refine ⟨(ExecutorState.selectEarliest e rest).1,
      { s with schedule := (ExecutorState.selectEarliest e rest).2 },
      ?_, ?_, ?_, ?_, ?_, rfl, rfl, rfl⟩
    · rw [ExecutorState.popFromSchedule, h]
    · rw [h]
      exact (List.Perm.mem_iff (ExecutorState.selectEarliest_perm e rest)).mpr
        (List.mem_cons_self _ _)
    · rw [h]
      exact ExecutorState.selectEarliest_min e rest
    · rw [h]
      refine ExecutorState.selectEarliest_tie rest e ?_
      rw [h] at hsorted
      exact hsorted
    · rw [h]
      exact ExecutorState.selectEarliest_perm e rest

/-- Witness for C7: the spec section 8 scenario, a tag:7 entry due at 100
scheduled before a tag:8 entry due at 50. -/
theorem popFromSchedule_spec_witness :
    (sPop.schedule = [] → sPop.popFromSchedule = none) ∧
    (∀ e rest, sPop.schedule = e :: rest → ∃ b s2,
      sPop.popFromSchedule = some (b, s2) ∧
      b ∈ sPop.schedule ∧
      (∀ x ∈ sPop.schedule, b.due ≤ x.due) ∧
      (∀ x ∈ sPop.schedule, x.due = b.due → b.seq ≤ x.seq) ∧
      List.Perm sPop.schedule (b :: s2.schedule) ∧
      s2.ranScheduled = sPop.ranScheduled ∧
      s2.ranImmediate = sPop.ranImmediate ∧
      s2.immediateQueue = sPop.immediateQueue) :=
  popFromSchedule_spec sPop (by decide)

namespace ExecutorState

/-- One step preserves the state of a canceled id: the id stays below the
submission counter, absent from the fired log, and absent from the
schedule. -/
theorem canceledInv_step {id : Nat} {s s2 : ExecutorState} {op : ExOp}
    (h1 : id < s.nextSeq) (h2 : id ∉ s.ranScheduled)
    (h3 : ∀ e ∈ s.schedule, e.seq ≠ id) (hstep : s.stepEx op = some s2) :
    id < s2.nextSeq ∧ id ∉ s2.ranScheduled ∧ ∀ e ∈ s2.schedule, e.seq ≠ id := by
  cases op with
  | exec workId =>
      rw [stepEx, Option.some_inj] at hstep
      subst hstep
      exact ⟨h1, h2, h3⟩
  | sched delay top =>
      rw [stepEx] at hstep
      rw [scheduleExecution] at hstep
      by_cases hd : delay < 0
      · rw [if_pos hd] at hstep
        exact absurd hstep (by simp)
      · rw [if_neg hd] at hstep
        rw [Option.map_some', Option.some_inj] at hstep
        subst hstep
        refine ⟨Nat.lt_succ_of_lt h1, h2, ?_⟩
        intro e he
        rcases List.mem_append.mp he with hm | hm
        · exact h3 e hm
        · rw [List.mem_singleton] at hm
          subst hm
          exact Nat.ne_of_gt h1
  | cancel id2 =>
      rw [stepEx, Option.some_inj] at hstep
      subst hstep
      refine ⟨h1, h2, ?_⟩
      intro e he
      exact h3 e (List.mem_of_mem_filter he)
  | runImm =>
      rw [stepEx, Option.some_inj] at hstep
      subst hstep
      rw [runImmediateStep]
      cases hq : s.immediateQueue with
      | nil => exact ⟨h1, h2, h3⟩
      | cons workId rest => exact ⟨h1, h2, h3⟩
  | fire =>
      rw [stepEx, Option.some_inj] at hstep
      subst hstep
      rw [fireStep]
      cases hq : s.schedule with
      | nil => exact ⟨h1, h2, h3⟩
      | cons e rest =>
          have hmem : (selectEarliest e rest).1 ∈ e :: rest :=
            (List.Perm.mem_iff (selectEarliest_perm e rest)).mpr
              (List.mem_cons_self _ _)
          have hmem2 : ∀ x ∈ (selectEarliest e rest).2, x ∈ e :: rest := by
            intro x hxm
            exact (List.Perm.mem_iff (selectEarliest_perm e rest)).mpr
              (List.mem_cons_of_mem _ hxm)
          refine ⟨h1, ?_, ?_⟩
          · intro hc
            rcases List.mem_append.mp hc with hm | hm
            · exact h2 hm
            · rw [List.mem_singleton] at hm
              exact h3 (selectEarliest e rest).1 (hq ▸ hmem) hm.symm
          · intro x hxm
            exact h3 x (hq ▸ hmem2 x hxm)

/-- A whole run preserves the state of a canceled id. -/
theorem canceledInv_run {id : Nat} {s : ExecutorState} (ops : List ExOp)
    {s2 : ExecutorState}
    (h1 : id < s.nextSeq) (h2 : id ∉ s.ranScheduled)
    (h3 : ∀ e ∈ s.schedule, e.seq ≠ id) (hrun : s.runEx ops = some s2) :
    id < s2.nextSeq ∧ id ∉ s2.ranScheduled ∧ ∀ e ∈ s2.schedule, e.seq ≠ id := by
  induction ops generalizing s with
  | nil =>
      rw [runEx, Option.some_inj] at hrun
      subst hrun
      exact ⟨h1, h2, h3⟩
  | cons op ops ih =>
      rw [runEx] at hrun
      cases hs : s.stepEx op with
      | none => rw [hs] at hrun; exact absurd hrun (by simp)
      | some s1 =>
          rw [hs] at hrun
          obtain ⟨g1, g2, g3⟩ := canceledInv_step h1 h2 h3 hs
          exact ih g1 g2 g3 hrun

/-- One step preserves the FIFO accounting of immediate work: the work items
run so far followed by the items still queued are exactly the items
submitted, in submission order. -/
theorem fifo_step {s s2 : ExecutorState} {op : ExOp}
    (h : s.ranImmediate ++ s.immediateQueue = s.submittedImmediate)
    (hstep : s.stepEx op = some s2) :
    s2.ranImmediate ++ s2.immediateQueue = s2.submittedImmediate := by
  cases op with
  | exec workId =>
      rw [stepEx, Option.some_inj] at hstep
      subst hstep
      rw [execute]
      show s.ranImmediate ++ (s.immediateQueue ++ [workId]) = s.submittedImmediate ++ [workId]
      rw [← List.append_assoc, h]
  | sched delay top =>
      rw [stepEx] at hstep
      rw [scheduleExecution] at hstep
      by_cases hd : delay < 0
      · rw [if_pos hd] at hstep
        exact absurd hstep (by simp)
      · rw [if_neg hd] at hstep
        rw [Option.map_some', Option.some_inj] at hstep
        subst hstep
        exact h
  | cancel id2 =>
      rw [stepEx, Option.some_inj] at hstep
      subst hstep
      exact h
  | runImm =>
      rw [stepEx, Option.some_inj] at hstep
      subst hstep
      rw [runImmediateStep]
      cases hq : s.immediateQueue with
      | nil => exact h
      | cons workId rest =>
          show (s.ranImmediate ++ [workId]) ++ rest = s.submittedImmediate
          rw [List.append_assoc, List.singleton_append, ← hq, h]
  | fire =>
      rw [stepEx, Option.some_inj] at hstep
      subst hstep
      rw [fireStep]
      cases hq : s.schedule with
      | nil => exact h
      | cons e rest => exact h

end ExecutorState

/-- C6: once Cancel is invoked on a DelayedOperation handle strictly before
its scheduled work fires (the handle's generated id was issued by this
executor and has not been fired), the work never runs under any subsequent
sequence of executor events: the entry is removed from the Schedule and its
id never appears in the fired log.  Invoking Cancel again afterward, or when
the entry is no longer pending (for instance after it fired), changes
nothing and is never a fault. -/
theorem delayedOperation_cancel_spec (s : ExecutorState) (id : Nat)
    (hid : id < s.nextSeq) (hran : id ∉ s.ranScheduled) :
    (∀ e ∈ (s.cancelId id).schedule, e.seq ≠ id) ∧
    (∀ ops s2, (s.cancelId id).runEx ops = some s2 → id ∉ s2.ranScheduled) ∧
    (s.cancelId id).cancelId id = s.cancelId id ∧
    (id ∉ s.schedule.map SchedEntry.seq → s.cancelId id = s) := by
  have h3 : ∀ e ∈ (s.cancelId id).schedule, e.seq ≠ id := by
    intro e he
    have := (List.mem_filter.mp he).2
    exact bne_iff_ne.mp this
  refine ⟨h3, ?_, ?_, ?_⟩
  · intro ops s2 hrun
    have hid2 : id < (s.cancelId id).nextSeq := hid
    have hran2 : id ∉ (s.cancelId id).ranScheduled := hran
    exact (ExecutorState.canceledInv_run ops hid2 hran2 h3 hrun).2.1
  · show ({ s with schedule := (s.schedule.filter (fun e => e.seq != id)).filter (fun e => e.seq != id) } : ExecutorState) = { s with schedule := s.schedule.filter (fun e => e.seq != id) }
    have hff : (s.schedule.filter (fun e => e.seq != id)).filter (fun e => e.seq != id) = s.schedule.filter (fun e => e.seq != id) := by
      apply List.filter_eq_self.mpr
      intro e he
      exact (List.mem_filter.mp he).2
    rw [hff]
  · intro hnm
    show ({ s with schedule := s.schedule.filter (fun e => e.seq != id) } : ExecutorState) = s
    have hfs : s.schedule.filter (fun e => e.seq != id) = s.schedule := by
      apply List.filter_eq_self.mpr
      intro e he
      refine bne_iff_ne.mpr ?_
      intro hc
      exact hnm (hc ▸ List.mem_map_of_mem SchedEntry.seq he)
    rw [hfs]

/-- Witness for C6: cancel the pending id 0 in a concrete executor state and
run a concrete event sequence. -/
theorem delayedOperation_cancel_spec_witness :
    (∀ e ∈ (sCancel.cancelId 0).schedule, e.seq ≠ 0) ∧
    (∀ ops s2, (sCancel.cancelId 0).runEx ops = some s2 → 0 ∉ s2.ranScheduled) ∧
    (sCancel.cancelId 0).cancelId 0 = sCancel.cancelId 0 ∧
    (0 ∉ sCancel.schedule.map SchedEntry.seq → sCancel.cancelId 0 = sCancel) :=
  delayedOperation_cancel_spec sCancel 0 (by decide) (by decide)

/-- C8: immediate work submitted via Execute runs in exactly the order it
was submitted (FIFO) relative to other immediate work, for every sequence of
executor events, however the submissions are interleaved with scheduled
(delayed) activity; the run log is always the submission log's prefix, with
the still-queued items as the remainder.  Nothing relates the immediate log
to the fired-schedule log. -/
theorem execute_fifo (s : ExecutorState)
    (h : s.ranImmediate ++ s.immediateQueue = s.submittedImmediate) :
    ∀ ops s2, s.runEx ops = some s2 →
      s2.ranImmediate ++ s2.immediateQueue = s2.submittedImmediate := by
  intro ops
  induction ops generalizing s with
  | nil =>
      intro s2 hrun
      rw [ExecutorState.runEx, Option.some_inj] at hrun
      subst hrun
      exact h
  | cons op ops ih =>
      intro s2 hrun
      rw [ExecutorState.runEx] at hrun
      cases hs : s.stepEx op with
      | none => rw [hs] at hrun; exact absurd hrun (by simp)
      | some s1 =>
          rw [hs] at hrun
          exact ih s1 (ExecutorState.fifo_step h hs) s2 hrun

/-- Witness for C8: a concrete interleaved event sequence from a fresh
executor. -/
theorem execute_fifo_witness :
    sFifo.ranImmediate ++ sFifo.immediateQueue = sFifo.submittedImmediate :=
  execute_fifo ExecutorState.initEx (by decide) opsFifo sFifo (by decide)

end Firestore
